import Mathlib

/-!
Verification of the useClassy core text-rewriting engine (src/core.ts).

The development shallowly embeds the three exported operations of the core
(`extractClasses`, `transformClassModifiers`, `mergeClassAttributes`) and the
registry-feeding step of `processCode` (src/index.ts) over `List Char`.

The source operates on JavaScript strings with a fixed family of regular
expressions.  Each regex used by the cited code is deterministic (every
quantified character class is disjoint from the character that must follow
it), so regex matching is embedded as a direct recursive scanner.  JavaScript
`String.replace` with a global regex scans for the leftmost match, replaces
it, and resumes after the replaced segment; scanners below mirror that with a
fuel argument (fuel bounded by the text length, which suffices because every
match consumes at least one character).

JavaScript `Set<string>` preserves insertion order and ignores duplicate
insertions; it is embedded as a duplicate-free-by-construction `List (List
Char)` with `insertSet`.
-/

namespace UseClassy

/-- JavaScript whitespace (`\s` and `trim`) restricted to the ASCII range that
the source ever feeds it. -/
def isWsJS (c : Char) : Bool :=
  c = ' ' || c = '\t' || c = '\n' || c = '\r' || c = '\x0b' || c = '\x0c'

/-- Regex character class `\w`. -/
def isWordChar (c : Char) : Bool :=
  c.isAlpha || c.isDigit || c = '_'

/-- Regex character class `[\w-:]` from `CLASS_MODIFIER_REGEX`. -/
def isModChar (c : Char) : Bool :=
  isWordChar c || c = '-' || c = ':'

/-- JavaScript `String.prototype.trim`. -/
def trimJS (l : List Char) : List Char :=
  ((l.dropWhile isWsJS).reverse.dropWhile isWsJS).reverse

/-- JavaScript `Set.add`: appends unless already present (insertion order). -/
def insertSet (s : List (List Char)) (x : List Char) : List (List Char) :=
  if x ∈ s then s else s ++ [x]

/-- JavaScript `Array.prototype.join(" ")`. -/
def joinSpace (xs : List (List Char)) : List Char :=
  List.intercalate [' '] xs

/-- Constant `MAX_MODIFIER_DEPTH` (src/core.ts line 8). -/
def MAX_MODIFIER_DEPTH : Nat := 4

/-- One attempt of `CLASS_MODIFIER_REGEX = /class:([\w-:]+)="([^"]*)"/` at the
head of the text.  Returns the two capture groups (modifier chain, value) and
the text after the match.  The pattern is deterministic: `[\w-:]+` is greedy
and `=` is outside the class, `[^"]*` is greedy and ends at the next quote. -/
def matchClassModifier (s : List Char) : Option (List Char × List Char × List Char) :=
  if List.isPrefixOf ("class:".toList) s then
    let afterColon := s.drop 6
    let modifiers := afterColon.takeWhile isModChar
    if modifiers = [] then none
    else
      match afterColon.drop modifiers.length with
      | '=' :: '"' :: rest =>
        let classes := rest.takeWhile (fun c => c ≠ '"')
        match rest.drop classes.length with
        | '"' :: rest2 => some (modifiers, classes, rest2)
        | _ => none
      | _ => none
  else none

/-- Per value token expansion of `transformClassModifiers` (src/core.ts lines
163-175): the full `modifiers:value` token, then — when the chain has more
than one part — `part:value` for every nonempty part, with no depth cap. -/
def modifierTokensFor (modifiers : List Char) (parts : List (List Char))
    (value : List Char) : List (List Char) :=
  let result := [modifiers ++ ':' :: value]
  if parts.length > 1 then
    parts.foldl (fun acc part =>
      if part = [] then acc else acc ++ [part ++ ':' :: value]) result
  else result

/-- Embedding of `modifiedClassesArr` (src/core.ts lines 159-175): split the attribute
value on single spaces, trim, drop empties, expand each survivor. -/
def modifiedClassesArr (modifiers classes : List Char) : List (List Char) :=
  let parts := modifiers.splitOn ':'
  (((classes.splitOn ' ').map trimJS).filter (fun v => !v.isEmpty)).flatMap
    (fun value => modifierTokensFor modifiers parts value)

/-- Filter on produced tokens before they are added to the output set
(src/core.ts lines 179-184): drop empty tokens, tokens ending in a colon, and
tokens starting or ending with a single quote. -/
def keepToken (cls : List Char) : Bool :=
  !cls.isEmpty && cls.getLast? != some ':'
    && cls.head? != some '\x27' && cls.getLast? != some '\x27'

/-- Replacement of one `CLASS_MODIFIER_REGEX` match (src/core.ts lines
153-191): returns the replacement text and the tokens offered to
`generatedClassesSet` (already filtered, in order).  The blank-chain guard
reproduces `if (!modifiers?.trim()) return match`; with this regex the
captured chain is nonempty and whitespace-free so the guard never fires. -/
def modifierReplacement (classAttrName modifiers classes : List Char) :
    List Char × List (List Char) :=
  if trimJS modifiers = [] then
    ("class:".toList ++ modifiers ++ ('=' :: '"' :: classes) ++ ['"'], [])
  else
    let arr := modifiedClassesArr modifiers classes
    let finalAttrName :=
      if classAttrName = "className".toList then "className".toList else classAttrName
    (finalAttrName ++ ('=' :: '"' :: joinSpace arr) ++ ['"'], arr.filter keepToken)

/-- Scanner for `code.replace(CLASS_MODIFIER_REGEX, ...)`: leftmost match,
replace, resume after the match; other characters are copied.  Also collects
the tokens offered to the set, in match order. -/
def transformGo (classAttrName : List Char) : Nat → List Char → List Char × List (List Char)
  | 0, s => (s, [])
  | _ + 1, [] => ([], [])
  | fuel + 1, c :: cs =>
    match matchClassModifier (c :: cs) with
    | some (modifiers, classes, rest) =>
      let rep := modifierReplacement classAttrName modifiers classes
      let next := transformGo classAttrName fuel rest
      (rep.1 ++ next.1, rep.2 ++ next.2)
    | none =>
      let next := transformGo classAttrName fuel cs
      (c :: next.1, next.2)

/-- Embedding of `transformClassModifiers` (src/core.ts lines 147-192) instantiated with
`CLASS_MODIFIER_REGEX`: returns the rewritten text and the updated
`generatedClassesSet`. -/
def transformClassModifiers (code : List Char) (generatedClassesSet : List (List Char))
    (classAttrName : List Char) : List Char × List (List Char) :=
  let r := transformGo classAttrName code.length code
  (r.1, r.2.foldl insertSet generatedClassesSet)

/-! ## Attribute merger (src/core.ts lines 194-307) -/

/-- One attribute occurrence found by `attrFinderRegex`: the content of a
quoted value (capture group 1) or of a brace-delimited value (group 2). -/
inductive AttrItem where
  | quoted (v : List Char)
  | braced (e : List Char)
deriving DecidableEq

/-- One attempt of the attribute pattern
`(?:attrName|class)=(?:"([^"]*)"|{([^}]*)})` shared by `multipleClassRegex`
and `attrFinderRegex` (src/core.ts lines 197-214) at the head of the text.
The alternation tries `attrName` before `class`; at any position at most one
alternative can match the following `=`, so the try order is immaterial. -/
def matchSingleAttr (attrName : List Char) (s : List Char) : Option (AttrItem × List Char) :=
  let afterName : Option (List Char) :=
    if List.isPrefixOf (attrName ++ ['=']) s then some (s.drop (attrName.length + 1))
    else if List.isPrefixOf ("class=".toList) s then some (s.drop 6)
    else none
  match afterName with
  | none => none
  | some rest =>
    match rest with
    | '"' :: r =>
      let v := r.takeWhile (fun c => c ≠ '"')
      match r.drop v.length with
      | '"' :: r2 => some (.quoted v, r2)
      | _ => none
    | '\x7b' :: r =>
      let e := r.takeWhile (fun c => c ≠ '\x7d')
      match r.drop e.length with
      | '\x7d' :: r2 => some (.braced e, r2)
      | _ => none
    | _ => none

/-- Continuation `(?:\s+(attr))*` of `multipleClassRegex`: greedily extend the
run with whitespace-separated further attributes.  Returns the extension text
and the text after the run. -/
def matchRunTail (attrName : List Char) : Nat → List Char → List Char × List Char
  | 0, rest => ([], rest)
  | fuel + 1, rest =>
    let ws := rest.takeWhile isWsJS
    if ws = [] then ([], rest)
    else
      match matchSingleAttr attrName (rest.drop ws.length) with
      | some (_, rest2) =>
        let afterWs := rest.drop ws.length
        let t := afterWs.take (afterWs.length - rest2.length)
        let next := matchRunTail attrName fuel rest2
        (ws ++ t ++ next.1, next.2)
      | none => ([], rest)

/-- One attempt of `multipleClassRegex` at the head of the text: a first
attribute followed by the greedy whitespace-separated tail.  Returns the whole
matched text and the text after it. -/
def matchRun (attrName : List Char) (s : List Char) : Option (List Char × List Char) :=
  match matchSingleAttr attrName s with
  | none => none
  | some (_, rest1) =>
    let t1 := s.take (s.length - rest1.length)
    let tail := matchRunTail attrName rest1.length rest1
    some (t1 ++ tail.1, tail.2)

/-- The `attrFinderRegex.exec` loop over the matched run text (src/core.ts lines
227-262): all attribute occurrences inside the match, in order. -/
def findAttrItems (attrName : List Char) : Nat → List Char → List AttrItem
  | 0, _ => []
  | _ + 1, [] => []
  | fuel + 1, c :: cs =>
    match matchSingleAttr attrName (c :: cs) with
    | some (it, rest) => it :: findAttrItems attrName fuel rest
    | none => findAttrItems attrName fuel cs

/-- Loop state of the merge callback: collected static classes, the retained
dynamic expression, and whether it is function-call shaped. -/
structure MergeState where
  staticClasses : List (List Char)
  jsxExpr : Option (List Char)
  isFunctionCall : Bool
deriving DecidableEq

def mergeInit : MergeState := ⟨[], none, false⟩

/-- The function-call shape test `/^[a-zA-Z_][\w.]*\(.*\)$/` (src/core.ts line
246).  `.` does not match line terminators, `[\w.]*` is greedy with `(`
outside the class, and `.*` backtracks to the final `)` forced by `$`. -/
def isFunctionCallShaped (l : List Char) : Bool :=
  match l with
  | [] => false
  | c :: rest =>
    (c.isAlpha || c = '_') &&
    (match rest.dropWhile (fun d => isWordChar d || d = '.') with
     | [] => false
     | d :: mid =>
       d = '(' &&
       (match mid.getLast? with
        | none => false
        | some lastChar =>
          lastChar = ')' &&
          mid.dropLast.all (fun x =>
            x ≠ '\n' && x ≠ '\r' && x ≠ '\u2028' && x ≠ '\u2029')))

/-- Template-literal shape test `startsWith('\x60') && endsWith('\x60')`. -/
def isTemplateLit (l : List Char) : Bool :=
  l.head? == some '\x60' && l.getLast? == some '\x60'

/-- Body of the `while ((singleAttrMatch = attrFinderRegex.exec(match)))` loop
(src/core.ts lines 228-262), processing one found attribute occurrence. -/
def mergeItem : MergeState → AttrItem → MergeState
  | st, .quoted v =>
    if trimJS v ≠ [] then
      { st with staticClasses := st.staticClasses ++ [trimJS v] }
    else st
  | st, .braced e =>
    if e = [] then st
    else
      let cur := trimJS e
      if cur = [] then st
      else if isTemplateLit cur then
        let lit := trimJS ((cur.drop 1).dropLast)
        if lit ≠ [] then
          { st with staticClasses := st.staticClasses ++ [lit] }
        else st
      else
        let curFC := isFunctionCallShaped cur
        if st.jsxExpr.isNone || (curFC && !st.isFunctionCall) then
          { st with jsxExpr := some cur, isFunctionCall := curFC }
        else if curFC && st.isFunctionCall then
          { st with jsxExpr := some cur }
        else st

/-- The action of `mergeItem` on the `(jsxExpr, isFunctionCall)` components
alone, for one dynamic (brace, non-template) expression `cur` (already
trimmed and nonempty): the decision chain of src/core.ts lines 246-258. -/
def jsxStep (st : Option (List Char) × Bool) (cur : List Char) :
    Option (List Char) × Bool :=
  let curFC := isFunctionCallShaped cur
  if st.1.isNone || (curFC && !st.2) then (some cur, curFC)
  else if curFC && st.2 then (some cur, st.2)
  else st

/-- The dynamic expressions a run's item list feeds to the retention
decision, in encounter order: brace-delimited values that are nonempty,
nonempty after trimming, and not template literals (those are diverted to the
static classes), each taken trimmed. -/
def dynExprs (items : List AttrItem) : List (List Char) :=
  items.filterMap (fun it =>
    match it with
    | .quoted _ => none
    | .braced e =>
      if e = [] then none
      else if trimJS e = [] then none
      else if isTemplateLit (trimJS e) then none
      else some (trimJS e))

/-- Embedding of `jsxExpr.lastIndexOf(')')` as a split: `some (before, fromParen)` where
`fromParen` starts at the last `)` of the text, `none` when there is none. -/
def lastParenSplit (l : List Char) : Option (List Char × List Char) :=
  match l.reverse.dropWhile (fun c => c ≠ ')') with
  | [] => none
  | d :: restRev =>
    some (restRev.reverse, d :: (l.reverse.takeWhile (fun c => c ≠ ')')).reverse)

/-- The template-literal combination `attr={\x60<static> ${<expr>}\x60}` used
both by the non-call branch (line 293) and the no-parenthesis fallback of the
call branch (line 289). -/
def templateWrap (finalAttrName combinedStatic e : List Char) : List Char :=
  finalAttrName ++ ('=' :: '\x7b' :: '\x60' :: combinedStatic)
    ++ (' ' :: '$' :: '\x7b' :: e) ++ ('\x7d' :: '\x60' :: ['\x7d'])

/-- Replacement of one `multipleClassRegex` match (src/core.ts lines 222-306):
re-scan the match with the finder, fold the occurrences, then combine. -/
def mergeRunReplacement (attrName : List Char) (matchText : List Char) : List Char :=
  let items := findAttrItems attrName matchText.length matchText
  let st := items.foldl mergeItem mergeInit
  let finalAttrName :=
    if attrName = "className".toList then "className".toList else attrName
  let combinedStatic := trimJS (joinSpace st.staticClasses)
  match st.jsxExpr with
  | some e =>
    if combinedStatic = [] then
      finalAttrName ++ ('=' :: '\x7b' :: e) ++ ['\x7d']
    else if st.isFunctionCall then
      match lastParenSplit e with
      | some (pre, post) =>
        finalAttrName ++ ('=' :: '\x7b' :: pre)
          ++ (',' :: ' ' :: '\x60' :: combinedStatic) ++ ('\x60' :: post) ++ ['\x7d']
      | none => templateWrap finalAttrName combinedStatic e
    else templateWrap finalAttrName combinedStatic e
  | none =>
    if combinedStatic ≠ [] then
      finalAttrName ++ ('=' :: '"' :: combinedStatic) ++ ['"']
    else []

/-- Scanner for `code.replace(multipleClassRegex, ...)`. -/
def mergeGo (attrName : List Char) : Nat → List Char → List Char
  | 0, s => s
  | _ + 1, [] => []
  | fuel + 1, c :: cs =>
    match matchRun attrName (c :: cs) with
    | some (t, rest) => mergeRunReplacement attrName t ++ mergeGo attrName fuel rest
    | none => c :: mergeGo attrName fuel cs

/-- Embedding of `mergeClassAttributes` (src/core.ts lines 219-307). -/
def mergeClassAttributes (code : List Char) (attrName : List Char) : List Char :=
  mergeGo attrName code.length code

/-! ## Class extractor (src/core.ts lines 36-142) -/

/-- The whitespace splitter shared by `processClassString` (src/core.ts lines
39-58) and the inline token loop of `extractClasses` (lines 104-139): a token
ends at a space, tab or newline (or at the end of the string); after a
separator, the following run of `\s` characters is skipped.  The fuel is
spent once per separator, so `length + 1` fuel always suffices. -/
def splitClassTokensGo : Nat → List Char → List (List Char)
  | 0, _ => []
  | fuel + 1, s =>
    let tok := s.takeWhile (fun c => !(c = ' ' || c = '\t' || c = '\n'))
    match s.drop tok.length with
    | [] => if tok = [] then [] else [tok]
    | _ :: rest2 =>
      (if tok = [] then [] else [tok])
        ++ splitClassTokensGo fuel (rest2.dropWhile isWsJS)

def splitClassTokens (classStr : List Char) : List (List Char) :=
  splitClassTokensGo (classStr.length + 1) classStr

/-- The negative lookahead `(?![^>]*:class)` of `CLASS_REGEX` (src/core.ts
line 11): the text after the match must not contain `:class` before the
first `>`.  Returns `true` when such an occurrence exists (lookahead fails). -/
def hasColonClassAhead : List Char → Bool
  | [] => false
  | c :: cs =>
    if List.isPrefixOf (":class".toList) (c :: cs) then true
    else if c = '>' then false
    else hasColonClassAhead cs

/-- One attempt of `CLASS_REGEX = /class="([^"]*)"(?![^>]*:class)/` at the
head of the text: capture group 1 and the text after the match. -/
def matchClassAttr (s : List Char) : Option (List Char × List Char) :=
  if List.isPrefixOf ("class=\"".toList) s then
    let r := s.drop 7
    let v := r.takeWhile (fun c => c ≠ '"')
    match r.drop v.length with
    | '"' :: rest => if hasColonClassAhead rest then none else some (v, rest)
    | _ => none
  else none

/-- The `classRegex.exec` loop of `extractClasses`: all captured quoted
values, in order. -/
def findClassAttrValues : Nat → List Char → List (List Char)
  | 0, _ => []
  | _ + 1, [] => []
  | fuel + 1, c :: cs =>
    match matchClassAttr (c :: cs) with
    | some (v, rest) => v :: findClassAttrValues fuel rest
    | none => findClassAttrValues fuel cs

/-- The `classModifierRegex.exec` loop: all (modifier chain, value) capture
pairs, in order. -/
def findModifierMatches : Nat → List Char → List (List Char × List Char)
  | 0, _ => []
  | _ + 1, [] => []
  | fuel + 1, c :: cs =>
    match matchClassModifier (c :: cs) with
    | some (modifiers, classes, rest) => (modifiers, classes) :: findModifierMatches fuel rest
    | none => findModifierMatches fuel cs

/-- The depth-limited partial-variant loop of `extractClasses` (src/core.ts
lines 118-130): for `j` from `0` to `min(parts.length, MAX_MODIFIER_DEPTH) -
1`, add `part:cls` when `parts[j]` is nonempty. -/
def extractPartialAdds (parts : List (List Char)) (cls : List Char) : List (List Char) :=
  (List.range (min parts.length MAX_MODIFIER_DEPTH)).foldl
    (fun acc j =>
      let part := parts.getD j []
      if part = [] then acc else acc ++ [part ++ ':' :: cls]) []

/-- Tokens added for one modifier-attribute match of `extractClasses`
(src/core.ts lines 102-140), in add order: for each value token, the full
`modifiers:cls` token, then — when the chain contains a colon — the
depth-limited partial variants. -/
def extractTokensForMatch (modifiers classes : List Char) : List (List Char) :=
  (splitClassTokens classes).flatMap (fun cls =>
    (modifiers ++ ':' :: cls) ::
      (if ':' ∈ modifiers then extractPartialAdds (modifiers.splitOn ':') cls else []))

/-- Embedding of `extractClasses` (src/core.ts lines 63-142) instantiated with
`CLASS_REGEX` and `CLASS_MODIFIER_REGEX`: returns the populated
(`allFileClasses`, `modifierDerivedClasses`) pair.  Both sets are cleared
first (lines 70-71), so the result starts from empty sets.  `CLASS_REGEX` has
no second capture group, so the JSX-expression branch of the base loop (lines
82-93) never fires for this instantiation.  Each token of a modifier match is
added to both sets in add order; a match whose value capture is empty is
skipped (`if (modifiers && classes)`, line 102 — the chain capture is
nonempty by the pattern). -/
def extractClasses (code : List Char) : List (List Char) × List (List Char) :=
  let baseValues := findClassAttrValues code.length code
  let allBase := baseValues.foldl (fun s v => (splitClassTokens v).foldl insertSet s) []
  let modifierMatchList := findModifierMatches code.length code
  modifierMatchList.foldl
    (fun sets mc =>
      if mc.2 = [] then sets
      else (extractTokensForMatch mc.1 mc.2).foldl
        (fun sets t => (insertSet sets.1 t, insertSet sets.2 t)) sets)
    (allBase, [])

/-! ## Registry feeding (src/index.ts, `processCode`) -/

/-- The registry-update loop of `processCode` (src/index.ts lines 639-647):
every extracted class containing a colon is added to the global registry when
absent; the Boolean records whether the registry changed. -/
def registryStep (st : List (List Char) × Bool) (cls : List Char) :
    List (List Char) × Bool :=
  if ':' ∈ cls then
    if cls ∈ st.1 then st else (st.1 ++ [cls], true)
  else st

def registryFeed (currentGlobalClasses : List (List Char))
    (fileClasses : List (List Char)) : List (List Char) × Bool :=
  fileClasses.foldl registryStep (currentGlobalClasses, false)

/-- The registry effect of one `processCode` invocation: extract the file's
classes (clearing the per-file sets first) and feed the colon-containing ones
into the global registry. -/
def processCodeRegistry (code : List Char) (currentGlobalClasses : List (List Char)) :
    List (List Char) × Bool :=
  registryFeed currentGlobalClasses (extractClasses code).1

/-! ## Sanity checks against the repository's own test suite -/

example :
    mergeClassAttributes
      "<div class=\"flex\" class=\"items-center\" class=\"p-4\">Content</div>".toList
      "class".toList
      = "<div class=\"flex items-center p-4\">Content</div>".toList := by decide

example :
    transformClassModifiers "class:hover=\"text-blue-500 bg-gray-100\"".toList [] "class".toList
      = ("class=\"hover:text-blue-500 hover:bg-gray-100\"".toList,
         ["hover:text-blue-500".toList, "hover:bg-gray-100".toList]) := by decide

example :
    extractClasses "<div class=\"flex dark:text-gray-500\" class:hover=\"text-white\">".toList =
      (["flex".toList, "dark:text-gray-500".toList, "hover:text-white".toList],
       ["hover:text-white".toList]) := by decide

/-! ## Claim theorems -/

/-- Claim C3: on the input attribute `class:sm:hover="text-blue-500"`,
`transformClassModifiers` rewrites it to a standard attribute whose value is
exactly `sm:hover:text-blue-500 sm:text-blue-500 hover:text-blue-500` — the
full chain first, then each chain part in chain order — and all three tokens
enter the produced-tokens set. -/
theorem chain_expansion_complete :
    transformClassModifiers "class:sm:hover=\"text-blue-500\"".toList [] "class".toList =
      ("class=\"sm:hover:text-blue-500 sm:text-blue-500 hover:text-blue-500\"".toList,
       ["sm:hover:text-blue-500".toList, "sm:text-blue-500".toList,
        "hover:text-blue-500".toList]) := by decide

/-- Claim C1 (failing input): `mergeClassAttributes` is not idempotent.  On
`class={\x60a "x" b\x60}` the first merge turns the template literal into the
static attribute `class="a "x" b"`, whose embedded quotes make the second
merge re-parse it as the shorter attribute `class="a "` and rewrite it to
`class="a"`, so merging twice differs from merging once. -/
theorem merge_idempotence_failing_input :
    (mergeClassAttributes
        ("class=".toList ++ '\x7b' :: '\x60' :: "a \"x\" b".toList ++ ('\x60' :: ['\x7d']))
        "class".toList
      = "class=\"a \"x\" b\"".toList) ∧
    mergeClassAttributes (mergeClassAttributes
        ("class=".toList ++ '\x7b' :: '\x60' :: "a \"x\" b".toList ++ ('\x60' :: ['\x7d']))
        "class".toList) "class".toList
      ≠ mergeClassAttributes
        ("class=".toList ++ '\x7b' :: '\x60' :: "a \"x\" b".toList ++ ('\x60' :: ['\x7d']))
        "class".toList := by decide

/-- Claim C2 (counterexample): `class=" a"` contains no modifier attribute
and only a single (hence non-duplicated) standard attribute, and
`transformClassModifiers` indeed leaves it unchanged — but
`mergeClassAttributes` rewrites it to `class="a"`, so the claim's round-trip
identity fails for `mergeAttributes`. -/
theorem roundtrip_identity_counterexample :
    findModifierMatches "class=\" a\"".toList.length "class=\" a\"".toList = [] ∧
    (findAttrItems "class".toList "class=\" a\"".toList.length "class=\" a\"".toList).length = 1 ∧
    transformClassModifiers "class=\" a\"".toList [] "class".toList
      = ("class=\" a\"".toList, []) ∧
    mergeClassAttributes "class=\" a\"".toList "class".toList
      = "class=\"a\"".toList ∧
    mergeClassAttributes "class=\" a\"".toList "class".toList
      ≠ "class=\" a\"".toList := by decide

/-- A fold that appends at most one element per step grows by at most the
number of steps. -/
theorem foldl_length_le {α β : Type} (f : List α → β → List α)
    (hf : ∀ acc b, (f acc b).length ≤ acc.length + 1) :
    ∀ (l : List β) (acc : List α), (l.foldl f acc).length ≤ acc.length + l.length := by
  intro l
  induction l with
  | nil => intro acc; simp
  | cons b t ih =>
    intro acc
    have h1 := ih (f acc b)
    have h2 := hf acc b
    simp only [List.foldl_cons, List.length_cons]
    omega

/-- Claim C4: the extractor caps partial-variant generation.  The
depth-limited loop of `extractClasses` adds at most `MAX_MODIFIER_DEPTH = 4`
single-part-prefixed variants per value token, and on the 9-part chain
`class:a:b:c:d:e:f:g:h:i="z"` the modifier-derived set is exactly the full
chain token plus the four partial tokens `a:z b:z c:z d:z` — strictly fewer
than 10 partial-prefix tokens, the excess parts being truncated. -/
theorem extractor_depth_bound :
    (∀ (parts : List (List Char)) (cls : List Char),
      (extractPartialAdds parts cls).length ≤ MAX_MODIFIER_DEPTH) ∧
    extractClasses "class:a:b:c:d:e:f:g:h:i=\"z\"".toList =
      (["a:b:c:d:e:f:g:h:i:z".toList, "a:z".toList, "b:z".toList, "c:z".toList,
        "d:z".toList],
       ["a:b:c:d:e:f:g:h:i:z".toList, "a:z".toList, "b:z".toList, "c:z".toList,
        "d:z".toList]) ∧
    ((extractClasses "class:a:b:c:d:e:f:g:h:i=\"z\"".toList).2.filter
        (fun t => t ≠ "a:b:c:d:e:f:g:h:i:z".toList)).length < 10 := by
  refine ⟨?_, by decide, by decide⟩
  intro parts cls
  have h := foldl_length_le
    (fun acc j =>
      let part := parts.getD j []
      if part = [] then acc else acc ++ [part ++ ':' :: cls])
    (by
      intro acc b
      dsimp only
      split <;> simp)
    (List.range (min parts.length MAX_MODIFIER_DEPTH)) []
  simp only [List.length_nil, List.length_range, Nat.zero_add] at h
  calc (extractPartialAdds parts cls).length
      ≤ min parts.length MAX_MODIFIER_DEPTH := h
    _ ≤ MAX_MODIFIER_DEPTH := Nat.min_le_right _ _

/-- When no suffix of the text starts a `CLASS_MODIFIER_REGEX` match, the
transform scanner copies the text and offers no tokens. -/
theorem transformGo_of_no_match (a : List Char) :
    ∀ (fuel : Nat) (s : List Char),
      (∀ n, matchClassModifier (s.drop n) = none) →
      transformGo a fuel s = (s, []) := by
  intro fuel
  induction fuel with
  | zero => intro s _; rfl
  | succ fuel ih =>
    intro s h
    cases s with
    | nil => rfl
    | cons c cs =>
      have h0 : matchClassModifier (c :: cs) = none := by simpa using h 0
      have ht : transformGo a fuel cs = (cs, []) :=
        ih cs (fun n => by simpa using h (n + 1))
      simp [transformGo, h0, ht]

/-- When no suffix of the text starts a `multipleClassRegex` match, the merge
scanner copies the text. -/
theorem mergeGo_of_no_match (a : List Char) :
    ∀ (fuel : Nat) (s : List Char),
      (∀ n, matchRun a (s.drop n) = none) →
      mergeGo a fuel s = s := by
  intro fuel
  induction fuel with
  | zero => intro s _; rfl
  | succ fuel ih =>
    intro s h
    cases s with
    | nil => rfl
    | cons c cs =>
      have h0 : matchRun a (c :: cs) = none := by simpa using h 0
      have ht : mergeGo a fuel cs = cs :=
        ih cs (fun n => by simpa using h (n + 1))
      simp [mergeGo, h0, ht]

/-- Claim C2 (amended): text in which no position starts a modifier-attribute
match is returned unchanged (with an unchanged token set) by
`transformClassModifiers`, and text in which no position starts a standard
class-attribute match at all — rather than merely no duplicated one — is
returned unchanged by `mergeClassAttributes`.  (The original claim fails for
single non-duplicated attributes, which the merger still normalises; see the
counterexample.) -/
theorem roundtrip_identity_amended (code : List Char) (set : List (List Char))
    (attrName : List Char)
    (hmod : ((List.range (code.length + 1)).all
        (fun n => (matchClassModifier (code.drop n)).isNone)) = true)
    (hrun : ((List.range (code.length + 1)).all
        (fun n => (matchRun attrName (code.drop n)).isNone)) = true) :
    transformClassModifiers code set attrName = (code, set) ∧
    mergeClassAttributes code attrName = code := by
  have hdropAll : ∀ (p : List Char → Bool),
      ((List.range (code.length + 1)).all (fun n => p (code.drop n))) = true →
      ∀ n, p (code.drop n) = true := by
    intro p hp n
    by_cases hn : n < code.length + 1
    · exact List.all_eq_true.mp hp n (List.mem_range.mpr hn)
    · have h1 : code.drop n = code.drop code.length := by
        rw [List.drop_eq_nil_of_le (by omega), List.drop_eq_nil_of_le (by omega)]
      rw [h1]
      exact List.all_eq_true.mp hp code.length (List.mem_range.mpr (by omega))
  have hmod' : ∀ n, matchClassModifier (code.drop n) = none := by
    intro n
    exact Option.isNone_iff_eq_none.mp
      (hdropAll (fun l => (matchClassModifier l).isNone) hmod n)
  have hrun' : ∀ n, matchRun attrName (code.drop n) = none := by
    intro n
    exact Option.isNone_iff_eq_none.mp
      (hdropAll (fun l => (matchRun attrName l).isNone) hrun n)
  constructor
  · have h := transformGo_of_no_match attrName code.length code hmod'
    simp [transformClassModifiers, h]
  · exact mergeGo_of_no_match attrName code.length code hrun'

/-- Witness for C2 (amended) at plain markup without class attributes. -/
theorem roundtrip_identity_witness :
    transformClassModifiers "<div>hello</div>".toList [] "class".toList
      = ("<div>hello</div>".toList, []) ∧
    mergeClassAttributes "<div>hello</div>".toList "class".toList
      = "<div>hello</div>".toList :=
  roundtrip_identity_amended "<div>hello</div>".toList [] "class".toList
    (by decide) (by decide)

/-- Claim C5: the rewriter's filtering is registry-only.  Every produced
token that ends with a colon or is wrapped in single quotes is excluded from
the token set offered to the registry, yet the rewritten attribute's value is
the space-join of all produced tokens — the excluded ones included — so the
rendered markup loses nothing. -/
theorem rewriter_filter_registry_only (classAttrName modifiers classes cls : List Char)
    (hm : trimJS modifiers ≠ [])
    (_hmem : cls ∈ modifiedClassesArr modifiers classes)
    (hbad : cls.getLast? = some ':' ∨
      (cls.head? = some '\x27' ∧ cls.getLast? = some '\x27')) :
    cls ∉ (modifierReplacement classAttrName modifiers classes).2 ∧
    (modifierReplacement classAttrName modifiers classes).1 =
      (if classAttrName = "className".toList then "className".toList else classAttrName)
        ++ ('=' :: '"' :: joinSpace (modifiedClassesArr modifiers classes)) ++ ['"'] := by
  have hkeep : keepToken cls = false := by
    rcases hbad with h | ⟨h1, h2⟩
    · simp [keepToken, h]
    · simp [keepToken, h1, h2]
  refine ⟨?_, by simp [modifierReplacement, hm]⟩
  intro hcon
  have h2 : cls ∈ (modifiedClassesArr modifiers classes).filter keepToken := by
    simpa [modifierReplacement, hm] using hcon
  have h3 := (List.mem_filter.mp h2).2
  rw [hkeep] at h3
  exact Bool.false_ne_true h3

/-- Witness for C5: in `class:sm="a:"` the produced token `sm:a:` ends with a
colon, is kept out of the registry set, but still renders in the value. -/
theorem rewriter_filter_registry_only_witness :
    "sm:a:".toList ∉ (modifierReplacement "class".toList "sm".toList "a:".toList).2 ∧
    (modifierReplacement "class".toList "sm".toList "a:".toList).1 =
      (if "class".toList = "className".toList then "className".toList else "class".toList)
        ++ ('=' :: '"' :: joinSpace (modifiedClassesArr "sm".toList "a:".toList)) ++ ['"'] :=
  rewriter_filter_registry_only "class".toList "sm".toList "a:".toList "sm:a:".toList
    (by decide) (by decide) (Or.inl (by decide))

/-- The parts fold of the rewriter's per-token expansion appends one
`part:value` token per nonempty part, in order. -/
theorem modifierTokensFor_foldl (value : List Char) :
    ∀ (parts acc : List (List Char)),
      parts.foldl (fun acc part =>
          if part = [] then acc else acc ++ [part ++ ':' :: value]) acc
        = acc ++ (parts.filter (fun p => !p.isEmpty)).map (fun p => p ++ ':' :: value) := by
  intro parts
  induction parts with
  | nil => intro acc; simp
  | cons p t ih =>
    intro acc
    by_cases hp : p = []
    · simp [hp, ih]
    · simp [hp, ih (acc ++ [p ++ ':' :: value])]

/-- Claim C9: unlike the extractor, the rewriter applies no depth cap.  For a
modifier chain of two or more (nonempty) parts, the per-token expansion is
the full-chain token followed by a single-part-prefixed token for every one
of the parts; hence the 9-part chain `class:a:b:c:d:e:f:g:h:i="z"` is
rewritten with all nine partial variants in the attribute value — not four —
and all of them pass to the produced-tokens set (none trips the colon/quote
filter here). -/
theorem rewriter_no_depth_cap :
    (∀ modifiers value : List Char,
      2 ≤ (modifiers.splitOn ':').length →
      (∀ p ∈ modifiers.splitOn ':', p ≠ []) →
      modifierTokensFor modifiers (modifiers.splitOn ':') value =
        (modifiers ++ ':' :: value) ::
          (modifiers.splitOn ':').map (fun p => p ++ ':' :: value)) ∧
    transformClassModifiers "class:a:b:c:d:e:f:g:h:i=\"z\"".toList [] "class".toList =
      ("class=\"a:b:c:d:e:f:g:h:i:z a:z b:z c:z d:z e:z f:z g:z h:z i:z\"".toList,
       ["a:b:c:d:e:f:g:h:i:z".toList, "a:z".toList, "b:z".toList, "c:z".toList,
        "d:z".toList, "e:z".toList, "f:z".toList, "g:z".toList, "h:z".toList,
        "i:z".toList]) := by
  constructor
  · intro modifiers value h2 hne
    have hgt : 1 < (modifiers.splitOn ':').length := h2
    have hfil : (modifiers.splitOn ':').filter (fun p => !p.isEmpty)
        = modifiers.splitOn ':' :=
      List.filter_eq_self.mpr (fun p hp => by simpa using hne p hp)
    simp only [modifierTokensFor, if_pos hgt, modifierTokensFor_foldl, hfil,
      List.singleton_append]
  · decide

/-- Witness for C9 at the 9-part chain and value token `z`. -/
theorem rewriter_no_depth_cap_witness :
    modifierTokensFor "a:b:c:d:e:f:g:h:i".toList
        ("a:b:c:d:e:f:g:h:i".toList.splitOn ':') "z".toList =
      ("a:b:c:d:e:f:g:h:i:z".toList) ::
        ("a:b:c:d:e:f:g:h:i".toList.splitOn ':').map (fun p => p ++ ':' :: "z".toList) :=
  rewriter_no_depth_cap.1 "a:b:c:d:e:f:g:h:i".toList "z".toList
    (by decide) (by decide)

/-- The registry fold never removes members. -/
theorem registryFeed_mono :
    ∀ (file : List (List Char)) (st : List (List Char) × Bool) (x : List Char),
      x ∈ st.1 → x ∈ (file.foldl registryStep st).1 := by
  intro file
  induction file with
  | nil => intro st x hx; exact hx
  | cons c t ih =>
    intro st x hx
    refine ih (registryStep st c) x ?_
    unfold registryStep
    split
    · split
      · exact hx
      · exact List.mem_append_left _ hx
    · exact hx

/-- After the registry fold, every colon-containing file class is present. -/
theorem registryFeed_mem :
    ∀ (file : List (List Char)) (st : List (List Char) × Bool) (c : List Char),
      c ∈ file → ':' ∈ c → c ∈ (file.foldl registryStep st).1 := by
  intro file
  induction file with
  | nil => intro st c hc; cases hc
  | cons d t ih =>
    intro st c hc hcolon
    rcases List.mem_cons.mp hc with rfl | hct
    · refine registryFeed_mono t (registryStep st c) c ?_
      unfold registryStep
      rw [if_pos hcolon]
      split
      · assumption
      · exact List.mem_append_right _ (List.mem_singleton.mpr rfl)
    · exact ih (registryStep st d) c hct hcolon

/-- The registry fold is the identity on the set when every colon-containing
file class is already registered. -/
theorem registryFeed_id :
    ∀ (file : List (List Char)) (st : List (List Char) × Bool),
      (∀ c ∈ file, ':' ∈ c → c ∈ st.1) →
      (file.foldl registryStep st).1 = st.1 := by
  intro file
  induction file with
  | nil => intro st _; rfl
  | cons d t ih =>
    intro st h
    have hstep : (registryStep st d).1 = st.1 := by
      unfold registryStep
      split
      · rw [if_pos (h d (List.mem_cons_self d t) (by assumption))]
      · rfl
    have ht := ih (registryStep st d)
      (fun c hc hcolon => by rw [hstep]; exact h c (List.mem_cons_of_mem d hc) hcolon)
    rw [List.foldl_cons, ht, hstep]

/-- Lemma: `mergeItem` on a quoted value leaves the dynamic-expression state alone. -/
theorem mergeItem_quoted_jsx (st : MergeState) (v : List Char) :
    (mergeItem st (.quoted v)).jsxExpr = st.jsxExpr ∧
    (mergeItem st (.quoted v)).isFunctionCall = st.isFunctionCall := by
  by_cases h : trimJS v ≠ [] <;> simp [mergeItem, h]

/-- Folding `mergeItem` acts on the `(jsxExpr, isFunctionCall)` components
exactly as folding `jsxStep` over the run's dynamic expressions: quoted
values, template literals, and blank expressions leave them untouched. -/
theorem foldl_mergeItem_jsx :
    ∀ (items : List AttrItem) (st : MergeState),
      (((items.foldl mergeItem st).jsxExpr, (items.foldl mergeItem st).isFunctionCall) :
          Option (List Char) × Bool) =
        (dynExprs items).foldl jsxStep (st.jsxExpr, st.isFunctionCall) := by
  intro items
  induction items with
  | nil => intro st; rfl
  | cons it t ih =>
    intro st
    rw [List.foldl_cons]
    cases it with
    | quoted v =>
      have h1 : dynExprs (AttrItem.quoted v :: t) = dynExprs t := by
        simp [dynExprs]
      have h2 := mergeItem_quoted_jsx st v
      rw [h1, ih (mergeItem st (.quoted v)), h2.1, h2.2]
    | braced e =>
      by_cases he : e = []
      · have h1 : dynExprs (AttrItem.braced e :: t) = dynExprs t := by
          simp [dynExprs, he]
        have h2 : mergeItem st (.braced e) = st := by
          simp [mergeItem, he]
        rw [h1, h2, ih st]
      · by_cases hcur : trimJS e = []
        · have h1 : dynExprs (AttrItem.braced e :: t) = dynExprs t := by
            simp [dynExprs, he, hcur]
          have h2 : mergeItem st (.braced e) = st := by
            simp [mergeItem, he, hcur]
          rw [h1, h2, ih st]
        · by_cases htl : isTemplateLit (trimJS e) = true
          · have h1 : dynExprs (AttrItem.braced e :: t) = dynExprs t := by
              simp [dynExprs, he, hcur, htl]
            have h2 : (mergeItem st (.braced e)).jsxExpr = st.jsxExpr ∧
                (mergeItem st (.braced e)).isFunctionCall = st.isFunctionCall := by
              by_cases hlit : trimJS ((trimJS e).tail.dropLast) = [] <;>
                simp [mergeItem, he, hcur, htl, hlit]
            rw [h1, ih (mergeItem st (.braced e)), h2.1, h2.2]
          · have h1 : dynExprs (AttrItem.braced e :: t) = trimJS e :: dynExprs t := by
              simp [dynExprs, he, hcur, htl]
            have h2 : (((mergeItem st (.braced e)).jsxExpr,
                (mergeItem st (.braced e)).isFunctionCall) : Option (List Char) × Bool) =
                jsxStep (st.jsxExpr, st.isFunctionCall) (trimJS e) := by
              obtain ⟨sc, je, fc⟩ := st
              cases je <;> cases fc <;>
                cases hfc : isFunctionCallShaped (trimJS e) <;>
                  simp [mergeItem, jsxStep, he, hcur, htl, hfc]
            rw [h1, ih (mergeItem st (.braced e)), h2, List.foldl_cons]

/-- From a state that already retains an expression, each function-call
expression overwrites the retained one and non-call expressions are ignored:
the fold keeps the last call if any call occurs, the initial expression
otherwise. -/
theorem jsxStep_foldl_some :
    ∀ (exprs : List (List Char)) (e0 : List Char) (b : Bool),
      exprs.foldl jsxStep (some e0, b) =
        (if exprs.filter isFunctionCallShaped = [] then some e0
         else (exprs.filter isFunctionCallShaped).getLast?,
         b || !(exprs.filter isFunctionCallShaped).isEmpty) := by
  intro exprs
  induction exprs with
  | nil => intro e0 b; simp
  | cons cur t ih =>
    intro e0 b
    rw [List.foldl_cons]
    cases hc : isFunctionCallShaped cur with
    | true =>
      have hstep : jsxStep (some e0, b) cur = (some cur, true) := by
        unfold jsxStep
        cases b <;> simp [hc]
      have hfc : (cur :: t).filter isFunctionCallShaped
          = cur :: t.filter isFunctionCallShaped := by
        simp [List.filter_cons, hc]
      rw [hstep, ih cur true, hfc]
      cases hft : t.filter isFunctionCallShaped with
      | nil => simp [hft]
      | cons x xs => simp [hft]
    | false =>
      have hstep : jsxStep (some e0, b) cur = (some e0, b) := by
        unfold jsxStep
        cases b <;> simp [hc]
      have hfc : (cur :: t).filter isFunctionCallShaped
          = t.filter isFunctionCallShaped := by
        simp [List.filter_cons, hc]
      rw [hstep, ih e0 b, hfc]

/-- From the empty state, the fold keeps the last function-call expression
when one occurs and the first expression otherwise. -/
theorem jsxStep_foldl_none :
    ∀ (exprs : List (List Char)),
      exprs.foldl jsxStep (none, false) =
        (if exprs.filter isFunctionCallShaped = [] then exprs.head?
         else (exprs.filter isFunctionCallShaped).getLast?,
         !(exprs.filter isFunctionCallShaped).isEmpty) := by
  intro exprs
  cases exprs with
  | nil => rfl
  | cons cur t =>
    rw [List.foldl_cons]
    have hstep : jsxStep (none, false) cur = (some cur, isFunctionCallShaped cur) := by
      unfold jsxStep
      simp
    rw [hstep]
    cases hc : isFunctionCallShaped cur with
    | true =>
      have hfc : (cur :: t).filter isFunctionCallShaped
          = cur :: t.filter isFunctionCallShaped := by
        simp [List.filter_cons, hc]
      rw [jsxStep_foldl_some t cur true, hfc]
      cases hft : t.filter isFunctionCallShaped with
      | nil => simp [hft]
      | cons x xs => simp [hft]
    | false =>
      have hfc : (cur :: t).filter isFunctionCallShaped
          = t.filter isFunctionCallShaped := by
        simp [List.filter_cons, hc]
      rw [jsxStep_foldl_some t cur false, hfc]
      simp only [Bool.false_or, List.head?_cons]

/-- Claim C6: within one attribute run the merger retains at most one dynamic
(non-template-literal) expression, chosen in encounter order: a
function-call-shaped expression is preferred over any non-call expression,
among several function calls the last one encountered wins, and when no call
occurs the first non-empty expression is kept. -/
theorem merger_dynamic_retention_policy (items : List AttrItem) :
    (items.foldl mergeItem mergeInit).jsxExpr =
      (if (dynExprs items).filter isFunctionCallShaped = [] then (dynExprs items).head?
       else ((dynExprs items).filter isFunctionCallShaped).getLast?) := by
  have h := foldl_mergeItem_jsx items mergeInit
  rw [show ((mergeInit.jsxExpr, mergeInit.isFunctionCall) : Option (List Char) × Bool) =
      ((none : Option (List Char)), false) from rfl] at h
  rw [jsxStep_foldl_none (dynExprs items)] at h
  exact congrArg Prod.fst h

/-- Claim C8: feeding the same file's extracted classes into an
already-updated registry is a no-op — the registry content after a second
`processCode` invocation on identical text equals the content after the
first, because extraction clears its per-file sets first (so it is a pure
function of the text) and set insertion of present tokens does nothing. -/
theorem registry_feed_idempotent (code : List Char)
    (currentGlobalClasses : List (List Char)) :
    (processCodeRegistry code (processCodeRegistry code currentGlobalClasses).1).1 =
      (processCodeRegistry code currentGlobalClasses).1 := by
  unfold processCodeRegistry registryFeed
  apply registryFeed_id
  intro c hc hcolon
  exact registryFeed_mem (extractClasses code).1 (currentGlobalClasses, false) c hc hcolon

/-- A nonempty `dropWhile` result starts with an element refuting the
predicate. -/
theorem dropWhile_head_false {α : Type} (p : α → Bool) :
    ∀ (l : List α) (a : α) (t : List α), l.dropWhile p = a :: t → p a = false := by
  intro l
  induction l with
  | nil => intro a t h; cases h
  | cons b bs ih =>
    intro a t h
    rw [List.dropWhile_cons] at h
    by_cases hb : p b = true
    · rw [if_pos hb] at h
      exact ih a t h
    · rw [if_neg hb] at h
      cases h
      exact Bool.not_eq_true _ ▸ Bool.of_not_eq_true hb

/-- A function-call-shaped expression ends with a closing parenthesis. -/
theorem isFunctionCallShaped_getLast (e : List Char)
    (h : isFunctionCallShaped e = true) : e.getLast? = some ')' := by
  cases e with
  | nil => cases h
  | cons c rest =>
    unfold isFunctionCallShaped at h
    rw [Bool.and_eq_true] at h
    obtain ⟨_, h2⟩ := h
    cases hdrop : rest.dropWhile (fun d => isWordChar d || d = '.') with
    | nil => rw [hdrop] at h2; cases h2
    | cons d mid =>
      rw [hdrop] at h2
      rw [Bool.and_eq_true] at h2
      obtain ⟨_, h3⟩ := h2
      cases hlast : mid.getLast? with
      | none => rw [hlast] at h3; cases h3
      | some lastChar =>
        rw [hlast] at h3
        rw [Bool.and_eq_true] at h3
        obtain ⟨hl, _⟩ := h3
        have hl' : lastChar = ')' := by simpa using hl
        have hrest : rest = rest.takeWhile (fun d => isWordChar d || d = '.') ++ d :: mid := by
          rw [← hdrop, List.takeWhile_append_dropWhile]
        rw [hrest, ← List.cons_append,
          List.getLast?_append_of_ne_nil _ (List.cons_ne_nil d mid)]
        cases mid with
        | nil => cases hlast
        | cons m ms => rw [List.getLast?_cons_cons, hlast, hl']

/-- A function-call-shaped expression contains a `)`, so the
`lastIndexOf(')')` split succeeds. -/
theorem isFunctionCallShaped_lastParen (e : List Char)
    (h : isFunctionCallShaped e = true) : lastParenSplit e ≠ none := by
  have hg := isFunctionCallShaped_getLast e h
  rw [List.getLast?_eq_head?_reverse] at hg
  cases hrev : e.reverse with
  | nil => rw [hrev] at hg; cases hg
  | cons d tl =>
    rw [hrev] at hg
    have hd : d = ')' := by simpa using hg
    subst hd
    unfold lastParenSplit
    rw [hrev, List.dropWhile_cons, if_neg (by simp)]
    simp

/-- When the merge fold reports a function call, the retained expression is
function-call shaped. -/
theorem merger_isFC_shaped (items : List AttrItem) (e : List Char)
    (hfc : (items.foldl mergeItem mergeInit).isFunctionCall = true)
    (hj : (items.foldl mergeItem mergeInit).jsxExpr = some e) :
    isFunctionCallShaped e = true := by
  have h := foldl_mergeItem_jsx items mergeInit
  rw [show ((mergeInit.jsxExpr, mergeInit.isFunctionCall) : Option (List Char) × Bool) =
      ((none : Option (List Char)), false) from rfl] at h
  rw [jsxStep_foldl_none (dynExprs items)] at h
  have h1 := congrArg Prod.fst h
  have h2 := congrArg Prod.snd h
  simp only at h1 h2
  rw [hj] at h1
  rw [hfc] at h2
  cases hft : (dynExprs items).filter isFunctionCallShaped with
  | nil => rw [hft] at h2; simp at h2
  | cons x xs =>
    rw [hft, if_neg (by simp)] at h1
    have hmem : e ∈ x :: xs := List.mem_of_getLast?_eq_some h1.symm
    rw [← hft] at hmem
    exact (List.mem_filter.mp hmem).2

/-- Claim C10: the merger's template-literal fallback for function calls is
unreachable.  Whenever the fold classifies the retained expression as a
function call, the classifying shape test guarantees the expression ends in
`)`, so the `lastIndexOf(')')` split never fails and the recovery branch of
`mergeRunReplacement` (and its warning) is never executed. -/
theorem merger_fallback_unreachable :
    (∀ e : List Char, isFunctionCallShaped e = true →
      e.getLast? = some ')' ∧ lastParenSplit e ≠ none) ∧
    (∀ (items : List AttrItem) (e : List Char),
      (items.foldl mergeItem mergeInit).isFunctionCall = true →
      (items.foldl mergeItem mergeInit).jsxExpr = some e →
      lastParenSplit e ≠ none) :=
  ⟨fun e h => ⟨isFunctionCallShaped_getLast e h, isFunctionCallShaped_lastParen e h⟩,
   fun items e hfc hj =>
     isFunctionCallShaped_lastParen e (merger_isFC_shaped items e hfc hj)⟩

/-- Witness for C10 at the one-item run `className={f()}`. -/
theorem merger_fallback_unreachable_witness :
    lastParenSplit "f()".toList ≠ none :=
  merger_fallback_unreachable.2 [AttrItem.braced "f()".toList] "f()".toList
    (by decide) (by decide)

/-- The `lastIndexOf(')')` split is exact: it recomposes the expression, the
suffix starts at a `)`, and no later `)` exists. -/
theorem lastParenSplit_spec (e pre post : List Char)
    (h : lastParenSplit e = some (pre, post)) :
    pre ++ post = e ∧ post.head? = some ')' ∧ ')' ∉ post.tail := by
  unfold lastParenSplit at h
  cases hdw : e.reverse.dropWhile (fun c => c ≠ ')') with
  | nil => rw [hdw] at h; cases h
  | cons d restRev =>
    rw [hdw] at h
    have hd : d = ')' := by
      have := dropWhile_head_false (fun c => c ≠ ')') e.reverse d restRev hdw
      simpa using this
    subst hd
    have h' := Option.some.inj h
    have hpre : pre = restRev.reverse := (congrArg Prod.fst h').symm
    have hpost : post = ')' :: (e.reverse.takeWhile (fun c => c ≠ ')')).reverse :=
      (congrArg Prod.snd h').symm
    subst hpre
    subst hpost
    refine ⟨?_, rfl, ?_⟩
    · have he : e = restRev.reverse
          ++ ')' :: (e.reverse.takeWhile (fun c => c ≠ ')')).reverse := by
        conv_lhs => rw [← List.reverse_reverse e]
        conv_lhs => rw [← List.takeWhile_append_dropWhile (fun c => c ≠ ')') e.reverse]
        rw [hdw, List.reverse_append, List.reverse_cons, List.append_assoc,
          List.singleton_append]
      exact he.symm
    · intro hmem
      have hmem' : (')' : Char) ∈ e.reverse.takeWhile (fun c => c ≠ ')') := by
        simpa using hmem
      have := List.mem_takeWhile_imp hmem'
      simp at this

/-- Claim C7: when a run retains both static classes and a function-call
expression, the merger injects the combined static string as an extra
template-literal argument immediately before the call's last closing
parenthesis: the `lastIndexOf(')')` split recomposes the expression exactly at
its final `)`, and `className="flex" className={getClassNames()}` merges to
`className={getClassNames(, \x60flex\x60)}` — containing both
`getClassNames(` and `flex`, the static string placed before the closing
parenthesis. -/
theorem merger_function_call_injection :
    (∀ e pre post : List Char, lastParenSplit e = some (pre, post) →
      pre ++ post = e ∧ post.head? = some ')' ∧ ')' ∉ post.tail) ∧
    mergeClassAttributes
      ("className=\"flex\" className=".toList ++ '\x7b' :: "getClassNames()".toList ++ ['\x7d'])
      "className".toList
      = ("className=".toList ++ '\x7b' :: "getClassNames(, ".toList
          ++ '\x60' :: "flex".toList ++ ('\x60' :: ')' :: ['\x7d'])) :=
  ⟨lastParenSplit_spec, by decide⟩

/-- Witness for C7 at `getClassNames()`: the split separates
`getClassNames(` from the final `)`. -/
theorem merger_function_call_injection_witness :
    "getClassNames(".toList ++ ")".toList = "getClassNames()".toList ∧
    (")".toList : List Char).head? = some ')' ∧ ')' ∉ (")".toList : List Char).tail :=
  merger_function_call_injection.1 "getClassNames()".toList
    "getClassNames(".toList ")".toList (by decide)

end UseClassy
